import Mathlib

/-!
Verification of the marshaling layer of deno-sqlite (`src/wasm.ts`).

Host (JavaScript) strings are modelled as lists of UTF-16 code units
(`List Nat`, each unit < 0x10000); byte buffers as lists of bytes
(`List Nat`, each < 0x100).  The wasm module handle is a record of its
exports; the observable actions of one marshaling call (malloc, the raw
memory copy, the continuation invocation, free) are recorded as an event
trace so that resource-discipline properties can be stated and proved.
-/

set_option maxRecDepth 100000

namespace DenoSqlite

/-- Modelled from the spec: the fixed status-code-to-name table of
`src/constants.ts`, which is not among the provided source files.  The spec
fixes its shape: a fixed bidirectional map from numeric status code to
symbolic name, with `Unknown` the sentinel for host-origin failures and
code 19 named "SqliteConstraint"; the numeric values follow the standard
SQLite result codes the spec refers to. -/
def statusTable : List (Int × String) :=
  [(-1, "Unknown"), (0, "SqliteOk"), (1, "SqliteError"), (2, "SqliteInternal"),
   (3, "SqlitePerm"), (4, "SqliteAbort"), (5, "SqliteBusy"), (6, "SqliteLocked"),
   (7, "SqliteNoMem"), (8, "SqliteReadOnly"), (9, "SqliteInterrupt"), (10, "SqliteIOErr"),
   (11, "SqliteCorrupt"), (12, "SqliteNotFound"), (13, "SqliteFull"), (14, "SqliteCantOpen"),
   (15, "SqliteProtocol"), (16, "SqliteEmpty"), (17, "SqliteSchema"), (18, "SqliteTooBig"),
   (19, "SqliteConstraint"), (20, "SqliteMismatch"), (21, "SqliteMisuse"), (22, "SqliteNoLFS"),
   (23, "SqliteAuth"), (24, "SqliteFormat"), (25, "SqliteRange"), (26, "SqliteNotADB"),
   (27, "SqliteNotice"), (28, "SqliteWarning"), (100, "SqliteRow"), (101, "SqliteDone")]

/-- Modelled from the spec: `Status.Unknown`, the sentinel status for errors
that originate on the host side ("no foreign status available"). -/
def statusUnknown : Int := -1

/-- A wasm module handle: the exports of `build/sqlite.js` that `src/wasm.ts`
consumes.  `malloc` gives the pointer the allocator returns for a requested
size, `memory` the current content of linear memory (byte at each address),
`str_len` the module's string-length export, `get_sqlite_error_str` the
pointer returned by the error-string export and `get_status` the value of
the last-status export. -/
structure WasmEnv where
  malloc : Nat → Nat
  memory : Nat → Nat
  str_len : Nat → Nat
  get_sqlite_error_str : Nat
  get_status : Int

/-- A Unicode scalar value: a codepoint below 0x110000 that is not a
surrogate. -/
def IsScalar (c : Nat) : Prop := c < 0x110000 ∧ (c < 0xD800 ∨ 0xE000 ≤ c)

instance (c : Nat) : Decidable (IsScalar c) := by
  unfold IsScalar; infer_instance

/-- Modelled from the spec: UTF-8 encoding of one Unicode scalar value, the
per-codepoint step of the platform `TextEncoder` used by `setStr`
(src/wasm.ts line 61). -/
def encodeScalar (c : Nat) : List Nat :=
  if c < 0x80 then [c]
  else if c < 0x800 then [0xC0 + c / 64, 0x80 + c % 64]
  else if c < 0x10000 then [0xE0 + c / 4096, 0x80 + c / 64 % 64, 0x80 + c % 64]
  else [0xF0 + c / 0x40000, 0x80 + c / 4096 % 64, 0x80 + c / 64 % 64, 0x80 + c % 64]

/-- UTF-16 representation of one Unicode scalar value: itself when below
0x10000, otherwise a high/low surrogate pair. -/
def scalarToUtf16 (c : Nat) : List Nat :=
  if c < 0x10000 then [c]
  else [0xD800 + (c - 0x10000) / 1024, 0xDC00 + (c - 0x10000) % 1024]

/-- UTF-16 representation of a sequence of scalar values. -/
def scalarsToUtf16 (cs : List Nat) : List Nat := cs.flatMap scalarToUtf16

/-- Modelled from the spec: the conversion a platform `TextEncoder` performs
from a (possibly ill-formed) UTF-16 code-unit sequence to scalar values:
surrogate pairs are combined, unpaired surrogates become U+FFFD. -/
def utf16ToScalars : List Nat → List Nat
  | [] => []
  | [u] => if u < 0xD800 ∨ 0xE000 ≤ u then [u] else [0xFFFD]
  | u :: v :: rest =>
    if u < 0xD800 ∨ 0xE000 ≤ u then u :: utf16ToScalars (v :: rest)
    else if u < 0xDC00 then
      if 0xDC00 ≤ v ∧ v < 0xE000 then
        (0x10000 + (u - 0xD800) * 1024 + (v - 0xDC00)) :: utf16ToScalars rest
      else 0xFFFD :: utf16ToScalars (v :: rest)
    else 0xFFFD :: utf16ToScalars (v :: rest)

/-- Modelled from the spec: `new TextEncoder().encode(str)` of src/wasm.ts
line 61 — the UTF-8 bytes of a host string given as UTF-16 code units. -/
def utf8Encode (s : List Nat) : List Nat := (utf16ToScalars s).flatMap encodeScalar

/-- The tail of the short decoding loop of `getStr` (src/wasm.ts lines
129-134): a decoded value below 0x10000 becomes one UTF-16 unit, anything
larger a surrogate pair. -/
def surrogatePack (v : Nat) : List Nat :=
  if v < 0x10000 then [v]
  else [0xD800 ||| ((v - 0x10000) >>> 10), 0xDC00 ||| ((v - 0x10000) &&& 0x3FF)]

/-- Units emitted by the 2-byte branch of the short loop (src/wasm.ts line 119). -/
def emit2 (u0 u1 : Nat) : List Nat := [((u0 &&& 31) <<< 6) ||| u1]

/-- Units emitted by the 3-byte branch of the short loop (src/wasm.ts lines 124, 129-134). -/
def emit3 (u0 u1 u2 : Nat) : List Nat :=
  surrogatePack (((u0 &&& 15) <<< 12) ||| (u1 <<< 6) ||| u2)

/-- Units emitted by the 4-byte branch of the short loop (src/wasm.ts lines 127, 129-134). -/
def emit4 (u0 u1 u2 u3 : Nat) : List Nat :=
  surrogatePack (((u0 &&& 7) <<< 18) ||| (u1 <<< 12) ||| (u2 <<< 6) ||| u3)

/-- The per-codepoint decoding loop of `getStr` used when the reported length
is at most 16 (src/wasm.ts lines 109-136), transcribed with its bit tests.
Reading past the end of the windowed view yields `undefined` in JavaScript,
which every use site (`x & 63`, `x & 0x80`, `String.fromCharCode`) treats
exactly like 0, so a missing byte is modelled as 0; the loop then exits
because `idx` has passed `len`. -/
def shortDecode : List Nat → List Nat
  | [] => []
  | u0 :: rest =>
    if u0 &&& 0x80 = 0 then u0 :: shortDecode rest
    else if u0 &&& 0xE0 = 0xC0 then
      emit2 u0 (rest.getD 0 0 &&& 63) ++ shortDecode (rest.drop 1)
    else if u0 &&& 0xF0 = 0xE0 then
      emit3 u0 (rest.getD 0 0 &&& 63) (rest.getD 1 0 &&& 63) ++ shortDecode (rest.drop 2)
    else
      emit4 u0 (rest.getD 0 0 &&& 63) (rest.getD 1 0 &&& 63) (rest.getD 2 0 &&& 63)
        ++ shortDecode (rest.drop 3)
termination_by l => l.length
decreasing_by all_goals (simp [List.length_drop]; try omega)

/-- Instrumented variant of `shortDecode` that fails (returns `none`)
exactly when the loop of src/wasm.ts lines 109-136 would read an index of
the windowed view at or past its length: each extra `bytes[idx++]` access
of a multi-byte branch requires the index to still be inside the view. -/
def shortDecodeStrict : List Nat → Option (List Nat)
  | [] => some []
  | u0 :: rest =>
    if u0 &&& 0x80 = 0 then (shortDecodeStrict rest).map (fun tl => u0 :: tl)
    else if u0 &&& 0xE0 = 0xC0 then
      if 1 ≤ rest.length then
        (shortDecodeStrict (rest.drop 1)).map (fun tl => emit2 u0 (rest.getD 0 0 &&& 63) ++ tl)
      else none
    else if u0 &&& 0xF0 = 0xE0 then
      if 2 ≤ rest.length then
        (shortDecodeStrict (rest.drop 2)).map
          (fun tl => emit3 u0 (rest.getD 0 0 &&& 63) (rest.getD 1 0 &&& 63) ++ tl)
      else none
    else
      if 3 ≤ rest.length then
        (shortDecodeStrict (rest.drop 3)).map
          (fun tl => emit4 u0 (rest.getD 0 0 &&& 63) (rest.getD 1 0 &&& 63) (rest.getD 2 0 &&& 63) ++ tl)
      else none
termination_by l => l.length
decreasing_by all_goals (simp [List.length_drop]; try omega)

/-- One step of the platform UTF-8 decoder (WHATWG): given a lead byte and
the bytes after it, the UTF-16 units this step emits and the bytes left for
the next step.  A sequence that is not well-formed UTF-8 at this position
(truncated, overlong, surrogate or out-of-range encoding, stray
continuation byte) emits U+FFFD and resumes after the lead byte. -/
def decode1 (b0 : Nat) (rest : List Nat) : List Nat × List Nat :=
  if b0 < 0x80 then ([b0], rest)
  else if 0xC2 ≤ b0 ∧ b0 ≤ 0xDF then
    match rest with
    | b1 :: rest1 =>
      if 0x80 ≤ b1 ∧ b1 ≤ 0xBF then ([(b0 - 0xC0) * 64 + (b1 - 0x80)], rest1)
      else ([0xFFFD], rest)
    | [] => ([0xFFFD], [])
  else if 0xE0 ≤ b0 ∧ b0 ≤ 0xEF then
    match rest with
    | b1 :: b2 :: rest2 =>
      if ((if b0 = 0xE0 then 0xA0 else 0x80) ≤ b1 ∧ b1 ≤ (if b0 = 0xED then 0x9F else 0xBF))
          ∧ 0x80 ≤ b2 ∧ b2 ≤ 0xBF then
        ([(b0 - 0xE0) * 4096 + (b1 - 0x80) * 64 + (b2 - 0x80)], rest2)
      else ([0xFFFD], rest)
    | other => ([0xFFFD], other)
  else if 0xF0 ≤ b0 ∧ b0 ≤ 0xF4 then
    match rest with
    | b1 :: b2 :: b3 :: rest3 =>
      if ((if b0 = 0xF0 then 0x90 else 0x80) ≤ b1 ∧ b1 ≤ (if b0 = 0xF4 then 0x8F else 0xBF))
          ∧ (0x80 ≤ b2 ∧ b2 ≤ 0xBF) ∧ (0x80 ≤ b3 ∧ b3 ≤ 0xBF) then
        (scalarToUtf16 ((b0 - 0xF0) * 0x40000 + (b1 - 0x80) * 4096 + (b2 - 0x80) * 64 + (b3 - 0x80)),
         rest3)
      else ([0xFFFD], rest)
    | other => ([0xFFFD], other)
  else ([0xFFFD], rest)

theorem decode1_snd_length (b0 : Nat) (rest : List Nat) :
    (decode1 b0 rest).2.length ≤ rest.length := by
  unfold decode1
  repeat' split
  all_goals simp_all [List.length_cons]
  all_goals omega

/-- The body of the platform UTF-8 decoder after byte-order-mark handling:
the byte stream decoded one `decode1` step per lead byte. -/
def textDecodeRaw : List Nat → List Nat
  | [] => []
  | b0 :: rest =>
    (decode1 b0 rest).1 ++ textDecodeRaw (decode1 b0 rest).2
termination_by bs => bs.length
decreasing_by
  simp only [List.length_cons, Nat.lt_succ_iff]
  exact decode1_snd_length _ _

/-- Modelled from the spec: `new TextDecoder().decode(bytes)` of src/wasm.ts
line 106 — the platform UTF-8 decoder (WHATWG) with its default options:
`ignoreBOM` is unset, so a leading byte-order mark EF BB BF is removed
before decoding; the remaining bytes are decoded per lead byte. -/
def textDecode (bs : List Nat) : List Nat :=
  if 3 ≤ bs.length ∧ bs.getD 0 0 = 0xEF ∧ bs.getD 1 0 = 0xBB ∧ bs.getD 2 0 = 0xBF then
    textDecodeRaw (bs.drop 3)
  else textDecodeRaw bs

/-- Read string from C: `getStr` of src/wasm.ts lines 102-138.  Queries the
module's `str_len` export for the byte length at `ptr`, windows that many
bytes of linear memory and decodes them: with the bulk platform decoder
when the length exceeds 16, with the per-codepoint loop otherwise. -/
def getStr (w : WasmEnv) (ptr : Nat) : List Nat :=
  let len := w.str_len ptr
  let bytes := (List.range len).map (fun i => w.memory (ptr + i))
  if 16 < len then textDecode bytes else shortDecode bytes

/-- The typed error of src/wasm.ts lines 5-53, as the data it carries:
a message (host string, UTF-16 units) and a numeric status code. -/
structure SqliteError where
  message : List Nat
  code : Int
deriving DecidableEq, Repr

/-- The `SqliteError` constructor (src/wasm.ts lines 15-28) applied to a
string context: the message is the string, the status falls back to
`Status.Unknown` when no code is supplied. -/
def SqliteError.fromString (context : List Nat) (code : Option Int) : SqliteError :=
  { message := context, code := code.getD statusUnknown }

/-- The `SqliteError` constructor (src/wasm.ts lines 15-28) applied to a
wasm module handle: the message is read through `getStr` at the pointer the
error-string export returns, the status falls back to the last-status
export when no code is supplied. -/
def SqliteError.fromWasm (w : WasmEnv) (code : Option Int) : SqliteError :=
  { message := getStr w w.get_sqlite_error_str, code := code.getD w.get_status }

/-- Reverse lookup of a numeric code in the status table, the lookup
`Status[this.code]` of src/wasm.ts line 51; `none` models `undefined` for
a code with no entry. -/
def statusNameOf (code : Int) : Option String :=
  (statusTable.find? (fun p => p.1 == code)).map (fun p => p.2)

/-- The `codeName` accessor of src/wasm.ts lines 50-52. -/
def SqliteError.codeName (e : SqliteError) : Option String := statusNameOf e.code

/-- The UTF-16 units of the string literal "Out of memory." thrown by
`setStr` and `setArr` (src/wasm.ts lines 64 and 87). -/
def oomMessage : List Nat :=
  [0x4F, 0x75, 0x74, 0x20, 0x6F, 0x66, 0x20, 0x6D, 0x65, 0x6D, 0x6F, 0x72, 0x79, 0x2E]

/-- Observable actions a marshaling call performs on the wasm module:
an allocation request (size and returned pointer), a byte copy into linear
memory, the continuation invocation, and a free. -/
inductive Ev where
  | malloc : Nat → Nat → Ev
  | store : Nat → List Nat → Ev
  | call : Nat → Ev
  | free : Nat → Ev
deriving DecidableEq, Repr

/-- Move string to C: `setStr` of src/wasm.ts lines 56-77.  The payload is
UTF-8 encoded, a buffer of encoded-length + 1 bytes is requested, the
bytes plus a NUL terminator are copied in, the continuation runs inside
try/finally-equivalent handling (free on both the normal and the raising
path).  The continuation is an arbitrary computation that either returns a
value or raises an error of type `ε`; `inj` embeds the `SqliteError` the
function itself can throw into that error type.  The result is the
call's outcome together with its event trace. -/
def setStr {ε α : Type} (w : WasmEnv) (inj : SqliteError → ε)
    (str : List Nat) (closure : Nat → Except ε α) : Except ε α × List Ev :=
  let bytes := utf8Encode str
  let ptr := w.malloc (bytes.length + 1)
  if ptr = 0 then
    (Except.error (inj (SqliteError.fromString oomMessage none)),
     [Ev.malloc (bytes.length + 1) ptr])
  else
    match closure ptr with
    | Except.ok r =>
      (Except.ok r,
       [Ev.malloc (bytes.length + 1) ptr, Ev.store ptr (bytes ++ [0]),
        Ev.call ptr, Ev.free ptr])
    | Except.error e =>
      (Except.error e,
       [Ev.malloc (bytes.length + 1) ptr, Ev.store ptr (bytes ++ [0]),
        Ev.call ptr, Ev.free ptr])

/-- Move Uint8Array to C: `setArr` of src/wasm.ts lines 80-99.  Same
protocol as `setStr` with no encoding step and no terminator: exactly
`arr.length` bytes are requested and copied. -/
def setArr {ε α : Type} (w : WasmEnv) (inj : SqliteError → ε)
    (arr : List Nat) (closure : Nat → Except ε α) : Except ε α × List Ev :=
  let ptr := w.malloc arr.length
  if ptr = 0 then
    (Except.error (inj (SqliteError.fromString oomMessage none)),
     [Ev.malloc arr.length ptr])
  else
    match closure ptr with
    | Except.ok r =>
      (Except.ok r,
       [Ev.malloc arr.length ptr, Ev.store ptr arr, Ev.call ptr, Ev.free ptr])
    | Except.error e =>
      (Except.error e,
       [Ev.malloc arr.length ptr, Ev.store ptr arr, Ev.call ptr, Ev.free ptr])

/-- Effect of one event on linear memory: a `store` writes its bytes at its
pointer, the other events leave memory unchanged. -/
def applyEv (m : Nat → Nat) : Ev → Nat → Nat
  | Ev.store p bs, a => if p ≤ a ∧ a < p + bs.length then bs.getD (a - p) 0 else m a
  | Ev.malloc _ _, a => m a
  | Ev.call _, a => m a
  | Ev.free _, a => m a

/-- Linear memory after a trace of events. -/
def runTrace (m : Nat → Nat) (tr : List Ev) : Nat → Nat := tr.foldl applyEv m

/-! Arithmetic facts about the bit operations of the short decoding loop. -/

theorem and128_eq_zero {x : Nat} (h : x < 0x80) : x &&& 0x80 = 0 := by
  have step : ∀ y < 0x80, y &&& 0x80 = 0 := by decide
  exact step x h

theorem lead2_facts : ∀ h < 32,
    ((0xC0 + h) &&& 0x80 = 0x80) ∧ ((0xC0 + h) &&& 0xE0 = 0xC0) ∧ ((0xC0 + h) &&& 31 = h) := by
  decide

theorem lead3_facts : ∀ h < 16,
    ((0xE0 + h) &&& 0x80 = 0x80) ∧ ((0xE0 + h) &&& 0xE0 = 0xE0)
      ∧ ((0xE0 + h) &&& 0xF0 = 0xE0) ∧ ((0xE0 + h) &&& 15 = h) := by
  decide

theorem lead4_facts : ∀ h < 8,
    ((0xF0 + h) &&& 0x80 = 0x80) ∧ ((0xF0 + h) &&& 0xE0 = 0xE0)
      ∧ ((0xF0 + h) &&& 0xF0 = 0xF0) ∧ ((0xF0 + h) &&& 7 = h) := by
  decide

theorem contByte_and63 : ∀ l < 64, (0x80 + l) &&& 63 = l := by decide

theorem surrogate_or : ∀ x < 1024,
    (0xD800 ||| x = 0xD800 + x) ∧ (0xDC00 ||| x = 0xDC00 + x) := by
  decide

theorem lor_mul (a b n : Nat) (hb : b < 2 ^ n) : (a * 2 ^ n) ||| b = a * 2 ^ n + b := by
  rw [Nat.mul_comm a (2 ^ n), ← Nat.mul_add_lt_is_or hb a]

theorem and_0x3FF (d : Nat) : d &&& 0x3FF = d % 1024 := by
  have step := Nat.and_pow_two_sub_one_eq_mod d 10
  norm_num at step
  exact step

theorem shiftRight10 (d : Nat) : d >>> 10 = d / 1024 := by
  rw [Nat.shiftRight_eq_div_pow]

/-! The units each branch of the short loop emits for a well-formed encoded
sequence recompose the encoded scalar. -/

theorem emit2_eq (c : Nat) (h1 : 0x80 ≤ c) (h2 : c < 0x800) :
    emit2 (0xC0 + c / 64) ((0x80 + c % 64) &&& 63) = [c] := by
  obtain ⟨f1, f2, f3⟩ := lead2_facts (c / 64) (by omega)
  rw [emit2, contByte_and63 (c % 64) (by omega), f3, Nat.shiftLeft_eq,
    lor_mul (c / 64) (c % 64) 6 (by norm_num; omega)]
  norm_num
  omega

theorem emit3_eq (c : Nat) (h1 : 0x800 ≤ c) (h2 : c < 0x10000) :
    emit3 (0xE0 + c / 4096) ((0x80 + c / 64 % 64) &&& 63) ((0x80 + c % 64) &&& 63) = [c] := by
  obtain ⟨f1, f2, f3, f4⟩ := lead3_facts (c / 4096) (by omega)
  rw [emit3, contByte_and63 (c / 64 % 64) (by omega), contByte_and63 (c % 64) (by omega), f4,
    Nat.shiftLeft_eq, Nat.shiftLeft_eq,
    lor_mul (c / 4096) (c / 64 % 64 * 2 ^ 6) 12 (by norm_num; omega)]
  have regroup : c / 4096 * 2 ^ 12 + c / 64 % 64 * 2 ^ 6 = (c / 4096 * 2 ^ 6 + c / 64 % 64) * 2 ^ 6 := by
    ring
  rw [regroup, lor_mul _ (c % 64) 6 (by norm_num; omega), surrogatePack,
    if_pos (by norm_num; omega)]
  norm_num
  omega

theorem emit4_eq (c : Nat) (h1 : 0x10000 ≤ c) (h2 : c < 0x110000) :
    emit4 (0xF0 + c / 0x40000) ((0x80 + c / 4096 % 64) &&& 63) ((0x80 + c / 64 % 64) &&& 63)
        ((0x80 + c % 64) &&& 63)
      = [0xD800 + (c - 0x10000) / 1024, 0xDC00 + (c - 0x10000) % 1024] := by
  obtain ⟨f1, f2, f3, f4⟩ := lead4_facts (c / 0x40000) (by omega)
  rw [emit4, contByte_and63 (c / 4096 % 64) (by omega), contByte_and63 (c / 64 % 64) (by omega),
    contByte_and63 (c % 64) (by omega), f4,
    Nat.shiftLeft_eq, Nat.shiftLeft_eq, Nat.shiftLeft_eq,
    lor_mul (c / 0x40000) (c / 4096 % 64 * 2 ^ 12) 18 (by norm_num; omega)]
  have regroup1 : c / 0x40000 * 2 ^ 18 + c / 4096 % 64 * 2 ^ 12
      = (c / 0x40000 * 2 ^ 6 + c / 4096 % 64) * 2 ^ 12 := by ring
  rw [regroup1, lor_mul _ (c / 64 % 64 * 2 ^ 6) 12 (by norm_num; omega)]
  have regroup2 : (c / 0x40000 * 2 ^ 6 + c / 4096 % 64) * 2 ^ 12 + c / 64 % 64 * 2 ^ 6
      = ((c / 0x40000 * 2 ^ 6 + c / 4096 % 64) * 2 ^ 6 + c / 64 % 64) * 2 ^ 6 := by ring
  rw [regroup2, lor_mul _ (c % 64) 6 (by norm_num; omega)]
  have hv : ((c / 0x40000 * 2 ^ 6 + c / 4096 % 64) * 2 ^ 6 + c / 64 % 64) * 2 ^ 6 + c % 64 = c := by
    norm_num
    omega
  rw [hv, surrogatePack, if_neg (by omega)]
  obtain ⟨g1, _⟩ := surrogate_or ((c - 0x10000) >>> 10)
    (by rw [shiftRight10]; omega)
  obtain ⟨_, g2⟩ := surrogate_or ((c - 0x10000) &&& 0x3FF)
    (by rw [and_0x3FF]; omega)
  rw [g1, g2, shiftRight10, and_0x3FF]

/-! Each decoder, applied to the encoding of one scalar value followed by
further bytes, emits the UTF-16 units of that scalar and continues with the
further bytes. -/

theorem shortDecode_encodeScalar (c : Nat) (bs : List Nat) (hc : c < 0x110000) :
    shortDecode (encodeScalar c ++ bs) = scalarToUtf16 c ++ shortDecode bs := by
  rcases Nat.lt_or_ge c 0x80 with h1 | h1
  · rw [encodeScalar, if_pos h1, List.cons_append, List.nil_append, shortDecode.eq_2,
      if_pos (and128_eq_zero h1), scalarToUtf16, if_pos (by omega : c < 0x10000)]
    rfl
  · rcases Nat.lt_or_ge c 0x800 with h2 | h2
    · obtain ⟨f1, f2, f3⟩ := lead2_facts (c / 64) (by omega)
      rw [encodeScalar, if_neg (by omega), if_pos h2, List.cons_append, List.cons_append,
        List.nil_append, shortDecode.eq_2, if_neg (by rw [f1]; norm_num), if_pos f2]
      simp only [List.getD_cons_zero, List.drop_succ_cons, List.drop_zero]
      rw [emit2_eq c h1 h2, scalarToUtf16, if_pos (by omega : c < 0x10000)]
    · rcases Nat.lt_or_ge c 0x10000 with h3 | h3
      · obtain ⟨f1, f2, f3, f4⟩ := lead3_facts (c / 4096) (by omega)
        rw [encodeScalar, if_neg (by omega), if_neg (by omega), if_pos h3, List.cons_append,
          List.cons_append, List.cons_append, List.nil_append, shortDecode.eq_2,
          if_neg (by rw [f1]; norm_num), if_neg (by rw [f2]; norm_num), if_pos f3]
        simp only [List.getD_cons_zero, List.getD_cons_succ, List.drop_succ_cons, List.drop_zero]
        rw [emit3_eq c h2 h3, scalarToUtf16, if_pos h3]
      · obtain ⟨f1, f2, f3, f4⟩ := lead4_facts (c / 0x40000) (by omega)
        rw [encodeScalar, if_neg (by omega), if_neg (by omega), if_neg (by omega),
          List.cons_append, List.cons_append, List.cons_append, List.cons_append,
          List.nil_append, shortDecode.eq_2, if_neg (by rw [f1]; norm_num),
          if_neg (by rw [f2]; norm_num), if_neg (by rw [f3]; norm_num)]
        simp only [List.getD_cons_zero, List.getD_cons_succ, List.drop_succ_cons, List.drop_zero]
        rw [emit4_eq c h3 hc, scalarToUtf16, if_neg (by omega)]

theorem shortDecodeStrict_encodeScalar (c : Nat) (bs : List Nat) (hc : c < 0x110000) :
    shortDecodeStrict (encodeScalar c ++ bs)
      = (shortDecodeStrict bs).map (fun tl => scalarToUtf16 c ++ tl) := by
  rcases Nat.lt_or_ge c 0x80 with h1 | h1
  · rw [encodeScalar, if_pos h1, List.cons_append, List.nil_append, shortDecodeStrict.eq_2,
      if_pos (and128_eq_zero h1)]
    simp only [scalarToUtf16, if_pos (by omega : c < 0x10000), List.cons_append, List.nil_append]
  · rcases Nat.lt_or_ge c 0x800 with h2 | h2
    · obtain ⟨f1, f2, f3⟩ := lead2_facts (c / 64) (by omega)
      rw [encodeScalar, if_neg (by omega), if_pos h2, List.cons_append, List.cons_append,
        List.nil_append, shortDecodeStrict.eq_2, if_neg (by rw [f1]; norm_num), if_pos f2,
        if_pos (by simp)]
      simp only [List.getD_cons_zero, List.drop_succ_cons, List.drop_zero, emit2_eq c h1 h2,
        scalarToUtf16, if_pos (by omega : c < 0x10000)]
    · rcases Nat.lt_or_ge c 0x10000 with h3 | h3
      · obtain ⟨f1, f2, f3, f4⟩ := lead3_facts (c / 4096) (by omega)
        rw [encodeScalar, if_neg (by omega), if_neg (by omega), if_pos h3, List.cons_append,
          List.cons_append, List.cons_append, List.nil_append, shortDecodeStrict.eq_2,
          if_neg (by rw [f1]; norm_num), if_neg (by rw [f2]; norm_num), if_pos f3,
          if_pos (by simp)]
        simp only [List.getD_cons_zero, List.getD_cons_succ, List.drop_succ_cons, List.drop_zero,
          emit3_eq c h2 h3, scalarToUtf16, if_pos h3]
      · obtain ⟨f1, f2, f3, f4⟩ := lead4_facts (c / 0x40000) (by omega)
        rw [encodeScalar, if_neg (by omega), if_neg (by omega), if_neg (by omega),
          List.cons_append, List.cons_append, List.cons_append, List.cons_append,
          List.nil_append, shortDecodeStrict.eq_2, if_neg (by rw [f1]; norm_num),
          if_neg (by rw [f2]; norm_num), if_neg (by rw [f3]; norm_num),
          if_pos (by simp)]
        simp only [List.getD_cons_zero, List.getD_cons_succ, List.drop_succ_cons, List.drop_zero,
          emit4_eq c h3 hc, scalarToUtf16, if_neg (by omega : ¬ c < 0x10000)]

theorem textDecodeRaw_encodeScalar (c : Nat) (bs : List Nat) (hsc : IsScalar c) :
    textDecodeRaw (encodeScalar c ++ bs) = scalarToUtf16 c ++ textDecodeRaw bs := by
  obtain ⟨hc, hsur⟩ := hsc
  rcases Nat.lt_or_ge c 0x80 with h1 | h1
  · rw [encodeScalar, if_pos h1, List.cons_append, List.nil_append, textDecodeRaw.eq_2]
    simp only [decode1, if_pos h1]
    rw [scalarToUtf16, if_pos (by omega : c < 0x10000)]
  · rcases Nat.lt_or_ge c 0x800 with h2 | h2
    · rw [encodeScalar, if_neg (by omega), if_pos h2, List.cons_append, List.cons_append,
        List.nil_append, textDecodeRaw.eq_2]
      simp only [decode1, if_neg (by omega : ¬(0xC0 + c / 64 < 0x80)),
        if_pos (by omega : 0xC2 ≤ 0xC0 + c / 64 ∧ 0xC0 + c / 64 ≤ 0xDF),
        if_pos (by omega : 0x80 ≤ 0x80 + c % 64 ∧ 0x80 + c % 64 ≤ 0xBF)]
      have hval : (0xC0 + c / 64 - 0xC0) * 64 + (0x80 + c % 64 - 0x80) = c := by omega
      rw [hval, scalarToUtf16, if_pos (by omega : c < 0x10000)]
    · rcases Nat.lt_or_ge c 0x10000 with h3 | h3
      · rw [encodeScalar, if_neg (by omega), if_neg (by omega), if_pos h3, List.cons_append,
          List.cons_append, List.cons_append, List.nil_append, textDecodeRaw.eq_2]
        have hcond : ((if 0xE0 + c / 4096 = 0xE0 then 0xA0 else 0x80) ≤ 0x80 + c / 64 % 64
            ∧ 0x80 + c / 64 % 64 ≤ (if 0xE0 + c / 4096 = 0xED then 0x9F else 0xBF))
            ∧ 0x80 ≤ 0x80 + c % 64 ∧ 0x80 + c % 64 ≤ 0xBF := by
          rcases hsur with hs | hs
          · refine ⟨⟨?_, ?_⟩, by omega, by omega⟩ <;> split <;> omega
          · refine ⟨⟨?_, ?_⟩, by omega, by omega⟩ <;> split <;> omega
        simp only [decode1, if_neg (by omega : ¬(0xE0 + c / 4096 < 0x80)),
          if_neg (by omega : ¬(0xC2 ≤ 0xE0 + c / 4096 ∧ 0xE0 + c / 4096 ≤ 0xDF)),
          if_pos (by omega : 0xE0 ≤ 0xE0 + c / 4096 ∧ 0xE0 + c / 4096 ≤ 0xEF),
          if_pos hcond]
        have hval : (0xE0 + c / 4096 - 0xE0) * 4096 + (0x80 + c / 64 % 64 - 0x80) * 64
            + (0x80 + c % 64 - 0x80) = c := by omega
        rw [hval, scalarToUtf16, if_pos h3]
      · rw [encodeScalar, if_neg (by omega), if_neg (by omega), if_neg (by omega),
          List.cons_append, List.cons_append, List.cons_append, List.cons_append,
          List.nil_append, textDecodeRaw.eq_2]
        have hcond : ((if 0xF0 + c / 0x40000 = 0xF0 then 0x90 else 0x80) ≤ 0x80 + c / 4096 % 64
            ∧ 0x80 + c / 4096 % 64 ≤ (if 0xF0 + c / 0x40000 = 0xF4 then 0x8F else 0xBF))
            ∧ (0x80 ≤ 0x80 + c / 64 % 64 ∧ 0x80 + c / 64 % 64 ≤ 0xBF)
            ∧ (0x80 ≤ 0x80 + c % 64 ∧ 0x80 + c % 64 ≤ 0xBF) := by
          refine ⟨⟨?_, ?_⟩, ⟨by omega, by omega⟩, by omega, by omega⟩ <;> split <;> omega
        simp only [decode1, if_neg (by omega : ¬(0xF0 + c / 0x40000 < 0x80)),
          if_neg (by omega : ¬(0xC2 ≤ 0xF0 + c / 0x40000 ∧ 0xF0 + c / 0x40000 ≤ 0xDF)),
          if_neg (by omega : ¬(0xE0 ≤ 0xF0 + c / 0x40000 ∧ 0xF0 + c / 0x40000 ≤ 0xEF)),
          if_pos (by omega : 0xF0 ≤ 0xF0 + c / 0x40000 ∧ 0xF0 + c / 0x40000 ≤ 0xF4),
          if_pos hcond]
        have hval : (0xF0 + c / 0x40000 - 0xF0) * 0x40000 + (0x80 + c / 4096 % 64 - 0x80) * 4096
            + (0x80 + c / 64 % 64 - 0x80) * 64 + (0x80 + c % 64 - 0x80) = c := by omega
        rw [hval]

/-- Splitting one scalar off the front of a UTF-16 sequence and re-pairing it. -/
theorem utf16ToScalars_scalarToUtf16 (c : Nat) (us : List Nat) (hsc : IsScalar c) :
    utf16ToScalars (scalarToUtf16 c ++ us) = c :: utf16ToScalars us := by
  obtain ⟨hc, hsur⟩ := hsc
  rcases Nat.lt_or_ge c 0x10000 with h1 | h1
  · rw [scalarToUtf16, if_pos h1, List.cons_append, List.nil_append]
    cases us with
    | nil => rw [utf16ToScalars.eq_2, if_pos hsur]; rfl
    | cons v us2 => rw [utf16ToScalars.eq_3, if_pos hsur]
  · rw [scalarToUtf16, if_neg (by omega), List.cons_append, List.cons_append, List.nil_append,
      utf16ToScalars.eq_3, if_neg (by omega), if_pos (by omega),
      if_pos (by constructor <;> omega)]
    have hval : 0x10000 + (0xD800 + (c - 0x10000) / 1024 - 0xD800) * 1024
        + (0xDC00 + (c - 0x10000) % 1024 - 0xDC00) = c := by omega
    rw [hval]

/-! Whole-sequence versions, by induction. -/

theorem shortDecode_flatMap (cs : List Nat) (h : ∀ c ∈ cs, c < 0x110000) :
    shortDecode (cs.flatMap encodeScalar) = scalarsToUtf16 cs := by
  induction cs with
  | nil => simp [shortDecode, scalarsToUtf16]
  | cons c cs ih =>
    rw [List.flatMap_cons, shortDecode_encodeScalar c _ (h c (by simp)),
      ih (fun x hx => h x (by simp [hx]))]
    rfl

theorem shortDecodeStrict_flatMap (cs : List Nat) (h : ∀ c ∈ cs, c < 0x110000) :
    shortDecodeStrict (cs.flatMap encodeScalar) = some (scalarsToUtf16 cs) := by
  induction cs with
  | nil => simp [shortDecodeStrict, scalarsToUtf16]
  | cons c cs ih =>
    rw [List.flatMap_cons, shortDecodeStrict_encodeScalar c _ (h c (by simp)),
      ih (fun x hx => h x (by simp [hx]))]
    rfl

theorem textDecodeRaw_flatMap (cs : List Nat) (h : ∀ c ∈ cs, IsScalar c) :
    textDecodeRaw (cs.flatMap encodeScalar) = scalarsToUtf16 cs := by
  induction cs with
  | nil => simp [textDecodeRaw, scalarsToUtf16]
  | cons c cs ih =>
    rw [List.flatMap_cons, textDecodeRaw_encodeScalar c _ (h c (by simp)),
      ih (fun x hx => h x (by simp [hx]))]
    rfl

theorem utf16ToScalars_scalarsToUtf16 (cs : List Nat) (h : ∀ c ∈ cs, IsScalar c) :
    utf16ToScalars (scalarsToUtf16 cs) = cs := by
  induction cs with
  | nil => rfl
  | cons c cs ih =>
    rw [scalarsToUtf16, List.flatMap_cons,
      utf16ToScalars_scalarToUtf16 c _ (h c (by simp))]
    rw [scalarsToUtf16] at ih
    rw [ih (fun x hx => h x (by simp [hx]))]

/-- The bytes `setStr` sends for a well-formed (scalar-sequence) host string
are exactly the scalar-wise UTF-8 encoding. -/
theorem utf8Encode_scalarsToUtf16 (cs : List Nat) (h : ∀ c ∈ cs, IsScalar c) :
    utf8Encode (scalarsToUtf16 cs) = cs.flatMap encodeScalar := by
  rw [utf8Encode, utf16ToScalars_scalarsToUtf16 cs h]

/-! Characterization of one marshaling call: the out-of-memory path and the
successful-allocation path of `setStr` and `setArr`. -/

theorem setStr_zero {ε α : Type} (w : WasmEnv) (inj : SqliteError → ε)
    (str : List Nat) (k : Nat → Except ε α)
    (h : w.malloc ((utf8Encode str).length + 1) = 0) :
    setStr w inj str k =
      (Except.error (inj (SqliteError.fromString oomMessage none)),
       [Ev.malloc ((utf8Encode str).length + 1) 0]) := by
  simp [setStr, h]

theorem setStr_pos {ε α : Type} (w : WasmEnv) (inj : SqliteError → ε)
    (str : List Nat) (k : Nat → Except ε α)
    (h : w.malloc ((utf8Encode str).length + 1) ≠ 0) :
    setStr w inj str k =
      (k (w.malloc ((utf8Encode str).length + 1)),
       [Ev.malloc ((utf8Encode str).length + 1) (w.malloc ((utf8Encode str).length + 1)),
        Ev.store (w.malloc ((utf8Encode str).length + 1)) (utf8Encode str ++ [0]),
        Ev.call (w.malloc ((utf8Encode str).length + 1)),
        Ev.free (w.malloc ((utf8Encode str).length + 1))]) := by
  simp only [setStr, h, if_neg (by simpa using h)]
  cases k (w.malloc ((utf8Encode str).length + 1)) <;> simp

theorem setArr_zero {ε α : Type} (w : WasmEnv) (inj : SqliteError → ε)
    (arr : List Nat) (k : Nat → Except ε α)
    (h : w.malloc arr.length = 0) :
    setArr w inj arr k =
      (Except.error (inj (SqliteError.fromString oomMessage none)),
       [Ev.malloc arr.length 0]) := by
  simp [setArr, h]

theorem setArr_pos {ε α : Type} (w : WasmEnv) (inj : SqliteError → ε)
    (arr : List Nat) (k : Nat → Except ε α)
    (h : w.malloc arr.length ≠ 0) :
    setArr w inj arr k =
      (k (w.malloc arr.length),
       [Ev.malloc arr.length (w.malloc arr.length),
        Ev.store (w.malloc arr.length) arr,
        Ev.call (w.malloc arr.length),
        Ev.free (w.malloc arr.length)]) := by
  simp only [setArr, h, if_neg (by simpa using h)]
  cases k (w.malloc arr.length) <;> simp

/-! Wasm environments used to instantiate the claims on concrete inputs:
one whose allocator returns pointer 4 and one whose allocator is exhausted. -/

def wEnv : WasmEnv :=
  { malloc := fun _ => 4, memory := fun _ => 0, str_len := fun _ => 0,
    get_sqlite_error_str := 0, get_status := 0 }

def wEnvOom : WasmEnv :=
  { malloc := fun _ => 0, memory := fun _ => 0, str_len := fun _ => 0,
    get_sqlite_error_str := 0, get_status := 0 }

/-- C1: for every wasm handle, payload and continuation, if the allocation
in `setStr` or `setArr` succeeds (malloc returns a non-zero pointer), then
`free` is invoked on that pointer exactly once on every exit path of the
call: the event trace contains exactly one free of that pointer whatever
the continuation's outcome (normal return or raise), and it is the last
action before control returns to the caller. -/
theorem setStr_setArr_free_once {ε α : Type} (w : WasmEnv) (inj : SqliteError → ε)
    (str arr : List Nat) (k j : Nat → Except ε α)
    (hs : w.malloc ((utf8Encode str).length + 1) ≠ 0)
    (ha : w.malloc arr.length ≠ 0) :
    ((setStr w inj str k).2.count (Ev.free (w.malloc ((utf8Encode str).length + 1))) = 1
      ∧ (setStr w inj str k).2.getLast?
          = some (Ev.free (w.malloc ((utf8Encode str).length + 1))))
    ∧ ((setArr w inj arr j).2.count (Ev.free (w.malloc arr.length)) = 1
      ∧ (setArr w inj arr j).2.getLast? = some (Ev.free (w.malloc arr.length))) := by
  rw [setStr_pos w inj str k hs, setArr_pos w inj arr j ha]
  refine ⟨⟨?_, by simp⟩, ?_, by simp⟩ <;> simp [List.count_cons]

theorem setStr_setArr_free_once_witness :
    (setStr wEnv (fun _ => ()) [0x41] (fun _ => Except.ok ())).2.count
        (Ev.free (wEnv.malloc ((utf8Encode [0x41]).length + 1))) = 1
      ∧ (setArr wEnv (fun _ => ()) [7, 8] (fun _ => (Except.error () : Except Unit Unit))).2.count
        (Ev.free (wEnv.malloc ([7, 8] : List Nat).length)) = 1 :=
  ⟨(setStr_setArr_free_once wEnv (fun _ => ()) [0x41] [7, 8]
      (fun _ => Except.ok ()) (fun _ => (Except.error () : Except Unit Unit))
      (by decide) (by decide)).1.1,
   (setStr_setArr_free_once wEnv (fun _ => ()) [0x41] [7, 8]
      (fun _ => Except.ok ()) (fun _ => (Except.error () : Except Unit Unit))
      (by decide) (by decide)).2.1⟩

/-- C2: when malloc returns the zero sentinel, `setStr` (and likewise
`setArr`) raises a `SqliteError` whose message is exactly "Out of memory."
and whose code is `Status.Unknown`; the continuation is never invoked and
free is never called. -/
theorem setStr_setArr_oom {ε α : Type} (w : WasmEnv) (inj : SqliteError → ε)
    (str arr : List Nat) (k j : Nat → Except ε α)
    (hs : w.malloc ((utf8Encode str).length + 1) = 0)
    (ha : w.malloc arr.length = 0) :
    ((setStr w inj str k).1
        = Except.error (inj { message := oomMessage, code := statusUnknown })
      ∧ (∀ p, Ev.call p ∉ (setStr w inj str k).2)
      ∧ (∀ p, Ev.free p ∉ (setStr w inj str k).2))
    ∧ ((setArr w inj arr j).1
        = Except.error (inj { message := oomMessage, code := statusUnknown })
      ∧ (∀ p, Ev.call p ∉ (setArr w inj arr j).2)
      ∧ (∀ p, Ev.free p ∉ (setArr w inj arr j).2))
    ∧ oomMessage = "Out of memory.".data.map Char.toNat
    ∧ statusUnknown = -1 := by
  rw [setStr_zero w inj str k hs, setArr_zero w inj arr j ha]
  refine ⟨⟨rfl, by simp, by simp⟩, ⟨rfl, by simp, by simp⟩, by decide, rfl⟩

theorem setStr_setArr_oom_witness :
    (setStr wEnvOom (fun e => e) [0x41] (fun _ => Except.ok ())).1
      = Except.error { message := oomMessage, code := statusUnknown } :=
  (setStr_setArr_oom wEnvOom (fun e => e) [0x41] [7]
    (fun _ => Except.ok ()) (fun _ => Except.ok ()) (by decide) (by decide)).1.1

/-- C3: if the continuation of a `setStr` or `setArr` call raises after a
successful allocation, the very same failure value is re-raised unchanged,
and the free of the foreign pointer has already happened (it precedes the
return: the trace ends with the free); if the continuation returns a
value, that exact value is returned. -/
theorem setStr_setArr_passthrough {ε α : Type} (w : WasmEnv) (inj : SqliteError → ε)
    (str arr : List Nat) (k j : Nat → Except ε α)
    (hs : w.malloc ((utf8Encode str).length + 1) ≠ 0)
    (ha : w.malloc arr.length ≠ 0) :
    ((∀ e, k (w.malloc ((utf8Encode str).length + 1)) = Except.error e →
        (setStr w inj str k).1 = Except.error e
        ∧ (setStr w inj str k).2.getLast?
            = some (Ev.free (w.malloc ((utf8Encode str).length + 1))))
      ∧ (∀ v, k (w.malloc ((utf8Encode str).length + 1)) = Except.ok v →
        (setStr w inj str k).1 = Except.ok v))
    ∧ ((∀ e, j (w.malloc arr.length) = Except.error e →
        (setArr w inj arr j).1 = Except.error e
        ∧ (setArr w inj arr j).2.getLast? = some (Ev.free (w.malloc arr.length)))
      ∧ (∀ v, j (w.malloc arr.length) = Except.ok v →
        (setArr w inj arr j).1 = Except.ok v)) := by
  rw [setStr_pos w inj str k hs, setArr_pos w inj arr j ha]
  exact ⟨⟨fun e he => ⟨by simp [he], by simp⟩, fun v hv => by simp [hv]⟩,
         ⟨fun e he => ⟨by simp [he], by simp⟩, fun v hv => by simp [hv]⟩⟩

theorem setStr_setArr_passthrough_witness :
    (setStr wEnv (fun _ => "") [0x41]
          (fun _ => (Except.error "boom" : Except String Unit))).1
        = Except.error "boom"
      ∧ (setStr wEnv (fun _ => "") [0x41]
          (fun _ => (Except.error "boom" : Except String Unit))).2.getLast?
        = some (Ev.free (wEnv.malloc ((utf8Encode [0x41]).length + 1))) :=
  ((setStr_setArr_passthrough wEnv (fun _ => "") [0x41] [7]
      (fun _ => (Except.error "boom" : Except String Unit)) (fun _ => Except.ok ())
      (by decide) (by decide)).1.1 "boom" rfl)

/-- C4: `setStr` encodes its payload as UTF-8, requests an allocation of
exactly encoded-length + 1 bytes, and copies the encoded bytes followed by
a single zero terminator through a view of exactly encoded-length + 1
bytes at the returned pointer; in particular for "héllo" it allocates 7
bytes and the bytes are 68 C3 A9 6C 6C 6F 00. -/
theorem setStr_encodes_nul_terminated {ε α : Type} (w : WasmEnv) (inj : SqliteError → ε)
    (str : List Nat) (k : Nat → Except ε α)
    (h : w.malloc ((utf8Encode str).length + 1) ≠ 0) :
    (setStr w inj str k).2 =
      [Ev.malloc ((utf8Encode str).length + 1) (w.malloc ((utf8Encode str).length + 1)),
       Ev.store (w.malloc ((utf8Encode str).length + 1)) (utf8Encode str ++ [0]),
       Ev.call (w.malloc ((utf8Encode str).length + 1)),
       Ev.free (w.malloc ((utf8Encode str).length + 1))]
    ∧ (utf8Encode str ++ [0]).length = (utf8Encode str).length + 1
    ∧ [0x68, 0xE9, 0x6C, 0x6C, 0x6F] = "héllo".data.map Char.toNat
    ∧ utf8Encode [0x68, 0xE9, 0x6C, 0x6C, 0x6F] ++ [0] = [0x68, 0xC3, 0xA9, 0x6C, 0x6C, 0x6F, 0]
    ∧ (utf8Encode [0x68, 0xE9, 0x6C, 0x6C, 0x6F]).length + 1 = 7 := by
  refine ⟨by rw [setStr_pos w inj str k h], by simp, by decide, by decide, by decide⟩

theorem setStr_encodes_nul_terminated_witness :
    (setStr wEnv (fun _ => ()) [0x68, 0xE9, 0x6C, 0x6C, 0x6F] (fun _ => Except.ok ())).2 =
      [Ev.malloc ((utf8Encode [0x68, 0xE9, 0x6C, 0x6C, 0x6F]).length + 1)
         (wEnv.malloc ((utf8Encode [0x68, 0xE9, 0x6C, 0x6C, 0x6F]).length + 1)),
       Ev.store (wEnv.malloc ((utf8Encode [0x68, 0xE9, 0x6C, 0x6C, 0x6F]).length + 1))
         (utf8Encode [0x68, 0xE9, 0x6C, 0x6C, 0x6F] ++ [0]),
       Ev.call (wEnv.malloc ((utf8Encode [0x68, 0xE9, 0x6C, 0x6C, 0x6F]).length + 1)),
       Ev.free (wEnv.malloc ((utf8Encode [0x68, 0xE9, 0x6C, 0x6C, 0x6F]).length + 1))] :=
  (setStr_encodes_nul_terminated wEnv (fun _ => ()) [0x68, 0xE9, 0x6C, 0x6C, 0x6F]
    (fun _ => Except.ok ()) (by decide)).1

/-- C7: `setArr` follows the same allocate/copy/invoke/release protocol as
`setStr` except that no encoding is performed and no terminator is
appended: it requests exactly the payload's byte length and copies exactly
those bytes unmodified. -/
theorem setArr_raw_copy {ε α : Type} (w : WasmEnv) (inj : SqliteError → ε)
    (arr : List Nat) (k : Nat → Except ε α)
    (h : w.malloc arr.length ≠ 0) :
    (setArr w inj arr k).2 =
      [Ev.malloc arr.length (w.malloc arr.length),
       Ev.store (w.malloc arr.length) arr,
       Ev.call (w.malloc arr.length),
       Ev.free (w.malloc arr.length)]
    ∧ (setArr w inj arr k).1 = k (w.malloc arr.length) := by
  rw [setArr_pos w inj arr k h]
  exact ⟨rfl, rfl⟩

theorem setArr_raw_copy_witness :
    (setArr wEnv (fun _ => ()) [9, 0, 255] (fun _ => Except.ok ())).2 =
      [Ev.malloc ([9, 0, 255] : List Nat).length (wEnv.malloc ([9, 0, 255] : List Nat).length),
       Ev.store (wEnv.malloc ([9, 0, 255] : List Nat).length) [9, 0, 255],
       Ev.call (wEnv.malloc ([9, 0, 255] : List Nat).length),
       Ev.free (wEnv.malloc ([9, 0, 255] : List Nat).length)] :=
  (setArr_raw_copy wEnv (fun _ => ()) [9, 0, 255] (fun _ => Except.ok ()) (by decide)).1

/-- C8: a `SqliteError` constructed from a module handle reads the handle's
last-error string through `getStr` at the error-string export's pointer as
the message and, when no code is supplied, the last-status export as the
code; the constructed value is a record of those snapshot values, so it is
fully determined at construction time and cannot be altered by later
changes of the module's error state. -/
theorem sqliteError_fromWasm_snapshot (w : WasmEnv) (c : Option Int) :
    SqliteError.fromWasm w c
      = { message := getStr w w.get_sqlite_error_str, code := c.getD w.get_status }
    ∧ (SqliteError.fromWasm w none).code = w.get_status
    ∧ (∀ cv : Int, (SqliteError.fromWasm w (some cv)).code = cv)
    ∧ (∀ _w2 : WasmEnv, SqliteError.fromWasm w c
        = { message := getStr w w.get_sqlite_error_str, code := c.getD w.get_status }) :=
  ⟨rfl, rfl, fun _ => rfl, fun _ => rfl⟩

/-- C9: for every defined Status value, the `codeName` accessor of a
`SqliteError` carrying that code resolves through the status-to-name table
to a non-empty symbolic name; in particular code 19 yields
"SqliteConstraint". -/
theorem codeName_total (msg : List Nat) (c : Int)
    (h : c ∈ statusTable.map Prod.fst) :
    (∃ n, SqliteError.codeName { message := msg, code := c } = some n ∧ n ≠ "")
    ∧ SqliteError.codeName { message := msg, code := 19 } = some "SqliteConstraint" := by
  constructor
  · have hall : ∀ x ∈ statusTable.map Prod.fst,
        (statusNameOf x).isSome = true ∧ (statusNameOf x).getD "" ≠ "" := by decide
    obtain ⟨h1, h2⟩ := hall c h
    cases hx : statusNameOf c with
    | none => rw [hx] at h1; cases h1
    | some n =>
      refine ⟨n, hx, ?_⟩
      rw [hx] at h2
      simpa using h2
  · exact (by decide : statusNameOf 19 = some "SqliteConstraint")

theorem codeName_total_witness :
    ∃ n, SqliteError.codeName { message := [], code := 19 } = some n ∧ n ≠ "" :=
  (codeName_total [] 19 (by decide)).1

/-! Reading a window of linear memory back as a byte list. -/

theorem read_window (m : Nat → Nat) (p : Nat) (bts : List Nat)
    (hm : ∀ i, i < bts.length → m (p + i) = bts.getD i 0) :
    (List.range bts.length).map (fun i => m (p + i)) = bts := by
  apply List.ext_getElem
  · simp
  · intro i h1 h2
    simp only [List.getElem_map, List.getElem_range]
    rw [hm i h2]
    exact List.getD_eq_getElem bts 0 h2

theorem runTrace_marshal (m : Nat → Nat) (a b p : Nat) (bts : List Nat) (x : Nat) :
    runTrace m [Ev.malloc a b, Ev.store p bts, Ev.call p, Ev.free p] x
      = if p ≤ x ∧ x < p + bts.length then bts.getD (x - p) 0 else m x := by
  simp [runTrace, applyEv, List.foldl]

/-- What `getStr` returns over a module state whose memory window at `p`
holds the bytes `bts` and whose `str_len` reports their count. -/
theorem getStr_spec (w : WasmEnv) (p : Nat) (bts : List Nat)
    (hlen : w.str_len p = bts.length)
    (hm : ∀ i, i < bts.length → w.memory (p + i) = bts.getD i 0) :
    getStr w p = if 16 < bts.length then textDecode bts else shortDecode bts := by
  simp only [getStr, hlen]
  rw [read_window w.memory p bts hm]

/-- A valid UTF-8 byte sequence begins with the byte-order mark EF BB BF
exactly when its first scalar is U+FEFF; with any other first scalar (or
no scalar at all) the platform decoder's mark test fails. -/
theorem flatMap_encodeScalar_no_bom (cs : List Nat) (hsc : ∀ c ∈ cs, IsScalar c)
    (hbom : cs.head? ≠ some 0xFEFF) :
    ¬(3 ≤ (cs.flatMap encodeScalar).length
      ∧ (cs.flatMap encodeScalar).getD 0 0 = 0xEF
      ∧ (cs.flatMap encodeScalar).getD 1 0 = 0xBB
      ∧ (cs.flatMap encodeScalar).getD 2 0 = 0xBF) := by
  cases cs with
  | nil => simp
  | cons c cs2 =>
    obtain ⟨hc, hsur⟩ := hsc c (by simp)
    have hne : c ≠ 0xFEFF := by simpa using hbom
    rw [List.flatMap_cons]
    rcases Nat.lt_or_ge c 0x80 with h1 | h1
    · rw [encodeScalar, if_pos h1, List.cons_append]
      rintro ⟨-, h0, -⟩
      rw [List.getD_cons_zero] at h0
      omega
    · rcases Nat.lt_or_ge c 0x800 with h2 | h2
      · rw [encodeScalar, if_neg (by omega), if_pos h2, List.cons_append]
        rintro ⟨-, h0, -⟩
        rw [List.getD_cons_zero] at h0
        omega
      · rcases Nat.lt_or_ge c 0x10000 with h3 | h3
        · rw [encodeScalar, if_neg (by omega), if_neg (by omega), if_pos h3,
            List.cons_append, List.cons_append, List.cons_append]
          rintro ⟨-, h0, hb1, hb2⟩
          rw [List.getD_cons_zero] at h0
          simp only [List.getD_cons_succ, List.getD_cons_zero] at hb1 hb2
          omega
        · rw [encodeScalar, if_neg (by omega), if_neg (by omega), if_neg (by omega),
            List.cons_append]
          rintro ⟨-, h0, -⟩
          rw [List.getD_cons_zero] at h0
          omega

/-- On valid UTF-8 whose first scalar is not U+FEFF the platform decoder
has no byte-order mark to strip and behaves like the raw loop. -/
theorem textDecode_flatMap_no_bom (cs : List Nat) (hsc : ∀ c ∈ cs, IsScalar c)
    (hbom : cs.head? ≠ some 0xFEFF) :
    textDecode (cs.flatMap encodeScalar) = scalarsToUtf16 cs := by
  unfold textDecode
  rw [if_neg (flatMap_encodeScalar_no_bom cs hsc hbom)]
  exact textDecodeRaw_flatMap cs hsc

/-- The two decoding paths of `getStr` do agree on valid UTF-8 whose first
scalar is not U+FEFF; the byte-order-mark inputs below are the exception
that refutes the unconditional claim. -/
theorem short_bulk_decoder_agree_no_bom (cs bytes : List Nat)
    (hv : bytes = cs.flatMap encodeScalar) (hsc : ∀ c ∈ cs, IsScalar c)
    (hbom : cs.head? ≠ some 0xFEFF) :
    shortDecode bytes = textDecode bytes := by
  subst hv
  rw [shortDecode_flatMap cs (fun c hc => (hsc c hc).1), textDecode_flatMap_no_bom cs hsc hbom]

/-- C6 (refuted on the program): the two decoding paths of `getStr` do not
produce identical host strings on all valid UTF-8 inputs.  On the 17-byte
valid sequence EF BB BF followed by fourteen 0x61 bytes — the UTF-8
byte-order mark and fourteen times 'a' — the per-codepoint loop yields
U+FEFF followed by the fourteen units, while the bulk platform decoder
(default `ignoreBOM` unset) strips the leading mark and yields only the
fourteen units. -/
theorem short_bulk_decoder_bom_disagree :
    shortDecode ([0xEF, 0xBB, 0xBF] ++ List.replicate 14 0x61)
        = 0xFEFF :: List.replicate 14 0x61
      ∧ textDecode ([0xEF, 0xBB, 0xBF] ++ List.replicate 14 0x61)
        = List.replicate 14 0x61
      ∧ shortDecode ([0xEF, 0xBB, 0xBF] ++ List.replicate 14 0x61)
        ≠ textDecode ([0xEF, 0xBB, 0xBF] ++ List.replicate 14 0x61) := by
  have hshort : shortDecode (List.replicate 14 0x61) = List.replicate 14 0x61 := by
    have h := shortDecode_flatMap (List.replicate 14 0x61) (by decide)
    rw [(by decide : (List.replicate 14 0x61).flatMap encodeScalar = List.replicate 14 0x61),
      (by decide : scalarsToUtf16 (List.replicate 14 0x61) = List.replicate 14 0x61)] at h
    exact h
  have hraw : textDecodeRaw (List.replicate 14 0x61) = List.replicate 14 0x61 := by
    have h := textDecodeRaw_flatMap (List.replicate 14 0x61) (by decide)
    rw [(by decide : (List.replicate 14 0x61).flatMap encodeScalar = List.replicate 14 0x61),
      (by decide : scalarsToUtf16 (List.replicate 14 0x61) = List.replicate 14 0x61)] at h
    exact h
  have h1 : shortDecode ([0xEF, 0xBB, 0xBF] ++ List.replicate 14 0x61)
      = 0xFEFF :: List.replicate 14 0x61 := by
    rw [List.cons_append, List.cons_append, List.cons_append, List.nil_append,
      shortDecode.eq_2, if_neg (by decide), if_neg (by decide), if_pos (by decide)]
    simp only [List.getD_cons_zero, List.getD_cons_succ, List.drop_succ_cons, List.drop_zero]
    rw [(by decide : emit3 0xEF (0xBB &&& 63) (0xBF &&& 63) = [0xFEFF]), hshort]
    rfl
  have h2 : textDecode ([0xEF, 0xBB, 0xBF] ++ List.replicate 14 0x61)
      = List.replicate 14 0x61 := by
    rw [List.cons_append, List.cons_append, List.cons_append, List.nil_append]
    unfold textDecode
    rw [if_pos (by decide)]
    simp only [List.drop_succ_cons, List.drop_zero]
    exact hraw
  exact ⟨h1, h2, by rw [h1, h2]; decide⟩

/-- A module state as it looks right after `setStr` has copied in the
well-formed string U+FEFF followed by sixteen 'a' (19 encoded bytes): its
memory is the trace-updated memory of `wEnv` and its `str_len` reports 19,
the encoded length of that string excluding the terminator. -/
def wEnvBom : WasmEnv :=
  { malloc := fun _ => 4,
    memory := runTrace wEnv.memory
      (setStr wEnv (fun _ => ()) (0xFEFF :: List.replicate 16 0x61)
        (fun _ => (Except.ok () : Except Unit Unit))).2,
    str_len := fun _ => 19,
    get_sqlite_error_str := 0, get_status := 0 }

/-- C5 (refuted on the program): the setStr/getStr round trip is not the
identity on every well-formed string.  For S = U+FEFF followed by sixteen
'a' characters the encoded length is 19, so `getStr` takes the bulk
decoder path, which strips the leading byte-order mark: reading back at
the written pointer yields the sixteen 'a' units without the leading
U+FEFF. -/
theorem setStr_getStr_roundtrip_bom_fails :
    getStr wEnvBom 4 = List.replicate 16 0x61
      ∧ getStr wEnvBom 4 ≠ 0xFEFF :: List.replicate 16 0x61 := by
  have henc : utf8Encode (0xFEFF :: List.replicate 16 0x61)
      = 0xEF :: 0xBB :: 0xBF :: List.replicate 16 0x61 := by decide
  have h19 : (utf8Encode (0xFEFF :: List.replicate 16 0x61)).length = 19 := by decide
  have hp : wEnv.malloc ((utf8Encode (0xFEFF :: List.replicate 16 0x61)).length + 1) = 4 := rfl
  have hraw : textDecodeRaw (List.replicate 16 0x61) = List.replicate 16 0x61 := by
    have h := textDecodeRaw_flatMap (List.replicate 16 0x61) (by decide)
    rw [(by decide : (List.replicate 16 0x61).flatMap encodeScalar = List.replicate 16 0x61),
      (by decide : scalarsToUtf16 (List.replicate 16 0x61) = List.replicate 16 0x61)] at h
    exact h
  have hm : ∀ i, i < (utf8Encode (0xFEFF :: List.replicate 16 0x61)).length →
      wEnvBom.memory (4 + i) = (utf8Encode (0xFEFF :: List.replicate 16 0x61)).getD i 0 := by
    intro i hi
    have hmem : wEnvBom.memory = runTrace wEnv.memory
        (setStr wEnv (fun _ => ()) (0xFEFF :: List.replicate 16 0x61)
          (fun _ => (Except.ok () : Except Unit Unit))).2 := rfl
    rw [hmem, setStr_pos wEnv (fun _ => ()) (0xFEFF :: List.replicate 16 0x61)
      (fun _ => (Except.ok () : Except Unit Unit)) (by rw [hp]; omega), hp, runTrace_marshal]
    rw [if_pos (by
      refine ⟨Nat.le_add_right _ _, ?_⟩
      simp only [List.length_append, List.length_cons, List.length_nil]
      omega)]
    rw [Nat.add_sub_cancel_left]
    exact List.getD_append _ [0] 0 i hi
  have hfirst : getStr wEnvBom 4 = List.replicate 16 0x61 := by
    rw [getStr_spec wEnvBom 4 (utf8Encode (0xFEFF :: List.replicate 16 0x61))
      (by rw [h19]; rfl) hm]
    rw [if_pos (show 16 < (utf8Encode (0xFEFF :: List.replicate 16 0x61)).length by
      rw [h19]; omega)]
    rw [henc]
    unfold textDecode
    rw [if_pos (by decide)]
    simp only [List.drop_succ_cons, List.drop_zero]
    exact hraw
  exact ⟨hfirst, by rw [hfirst]; decide⟩

/-- C10: for every byte buffer of reported length at most 16 whose bytes
form valid, complete UTF-8, the short decoding loop of `getStr` reads only
indices strictly below the length: the bounds-checked instrumentation of
the loop succeeds (and agrees with the unchecked loop), so no read past
the windowed view occurs. -/
theorem shortDecode_no_oob (cs bytes : List Nat)
    (hv : bytes = cs.flatMap encodeScalar) (hsc : ∀ c ∈ cs, IsScalar c)
    (hlen : bytes.length ≤ 16) :
    shortDecodeStrict bytes = some (shortDecode bytes) := by
  subst hv
  rw [shortDecodeStrict_flatMap cs (fun c hc => (hsc c hc).1),
    shortDecode_flatMap cs (fun c hc => (hsc c hc).1)]

theorem shortDecode_no_oob_witness :
    shortDecodeStrict (List.replicate 12 0x61 ++ [0xF0, 0x9F, 0x98, 0x80])
      = some (shortDecode (List.replicate 12 0x61 ++ [0xF0, 0x9F, 0x98, 0x80])) :=
  shortDecode_no_oob (List.replicate 12 0x61 ++ [0x1F600])
    (List.replicate 12 0x61 ++ [0xF0, 0x9F, 0x98, 0x80]) (by decide) (by decide) (by decide)

end DenoSqlite
